import Mathlib

/-
Verification development for the Realtime RealSense capture/detection
repository.  The Python sources (camera_controller.py,
object_detection_processor.py) are shallowly embedded below: pure numeric
code becomes functions over ℕ/ℤ/ℚ (numpy float64 arithmetic is modelled by
exact rationals; where the source compares against a standard deviation we
compare squares, which is equivalent because both sides are nonnegative),
stateful code becomes explicit state passing, and the streaming worker
becomes a step function over a list of iteration events.

Rational arithmetic is expressed through the kernel-reducible constructors
`mkRat` / `Rat.divInt` (the library's `+ * - /` on ℚ are irreducible, which
would make concrete evaluation impossible); the lemmas `qadd_eq`, `qsub_eq`,
`qmul_eq`, `qdiv_eq`, `qsum_eq` identify these operations with the ordinary
field operations, so all abstract reasoning happens over ordinary ℚ algebra.
-/

set_option maxRecDepth 100000

namespace Realtime

/-! ## Reducible rational arithmetic -/

/-- Addition on ℚ via the reducible smart constructor `mkRat`. -/
def qadd (a b : ℚ) : ℚ := mkRat (a.num * b.den + b.num * a.den) (a.den * b.den)

/-- Subtraction on ℚ via `mkRat`. -/
def qsub (a b : ℚ) : ℚ := mkRat (a.num * b.den - b.num * a.den) (a.den * b.den)

/-- Multiplication on ℚ via `mkRat`. -/
def qmul (a b : ℚ) : ℚ := mkRat (a.num * b.num) (a.den * b.den)

/-- Division on ℚ via `Rat.divInt` (division by zero yields 0, as in Mathlib). -/
def qdiv (a b : ℚ) : ℚ := Rat.divInt (a.num * b.den) (a.den * b.num)

/-- Sum of a list of rationals using `qadd`. -/
def qsum : List ℚ → ℚ
  | [] => 0
  | x :: xs => qadd x (qsum xs)

/-! ## Rational list statistics (models numpy mean / std on 1-d arrays) -/

/-- Mean of a list of rationals; models `np.mean` (0 on the empty list,
which the source never hits on the paths proved below). -/
def meanQ (xs : List ℚ) : ℚ := qdiv (qsum xs) ((xs.length : ℕ) : ℚ)

/-- Population variance; models `np.std(xs) ** 2` (numpy default ddof=0). -/
def varQ (xs : List ℚ) : ℚ :=
  qdiv (qsum (xs.map fun x => qmul (qsub x (meanQ xs)) (qsub x (meanQ xs))))
    ((xs.length : ℕ) : ℚ)

/-! ## Depth estimator
Embedding of `ObjectDetectionProcessor.calculate_depth_robust_center`
(object_detection_processor.py lines 106-143).  Depth maps carry their
numpy shape (`shape[0]` = height, `shape[1]` = width) and a value function;
values are the uint16 millimetre samples.  A bounding box is the float
`[x1, y1, x2, y2]` from the detector, modelled as exact rationals; the
source's `int(...)` conversions truncate toward zero. -/

/-- A depth frame: numpy array of shape (height, width) of uint16 values. -/
structure DepthMap where
  height : ℕ
  width : ℕ
  val : ℕ → ℕ → ℕ

/-- Detector bounding box `[x1, y1, x2, y2]` in pixel coordinates. -/
structure Box where
  x1 : ℚ
  y1 : ℚ
  x2 : ℚ
  y2 : ℚ
deriving DecidableEq

/-- Python `int()` applied to a rational value: truncation toward zero
(matches CPython's `int(float)` on the exact rational value; for integer
widths the float64 rounding of `width * 0.4 / 2` never crosses the
truncation boundary, so the exact-rational model agrees with numpy). -/
def ratTrunc (q : ℚ) : ℤ := q.num.tdiv (q.den : ℤ)

/-- Source constant `CENTER_REGION_RATIO = 0.6` (fraction of width/height
retained by the shrink step). -/
def centerRegionRatio : ℚ := mkRat 3 5

/-- Source constant `DEPTH_OUTLIER_THRESHOLD = 2.0`. -/
def depthOutlierThreshold : ℚ := 2

/-- Source constant `YOLO_INPUT_SIZE = 640`. -/
def yoloInputSize : ℤ := 640

/-- Shrunk-region pixel bounds `(center_x1, center_y1, center_x2, center_y2)`
computed exactly as in the source: margins are
`int(width * (1 - CENTER_REGION_RATIO) / 2)`, then clamped with
`max 0` / `min shape`. -/
def centerBounds (D : DepthMap) (b : Box) : ℤ × ℤ × ℤ × ℤ :=
  let x1 := ratTrunc b.x1
  let y1 := ratTrunc b.y1
  let x2 := ratTrunc b.x2
  let y2 := ratTrunc b.y2
  let margin_x := ratTrunc (qdiv (qmul ((x2 - x1 : ℤ) : ℚ) (qsub 1 centerRegionRatio)) 2)
  let margin_y := ratTrunc (qdiv (qmul ((y2 - y1 : ℤ) : ℚ) (qsub 1 centerRegionRatio)) 2)
  (max 0 (x1 + margin_x), max 0 (y1 + margin_y),
   min (D.width : ℤ) (x2 - margin_x), min (D.height : ℤ) (y2 - margin_y))

/-- Row-major samples of `depth_array[y1:y2, x1:x2]`. -/
def regionSamples (D : DepthMap) (y1 y2 x1 x2 : ℕ) : List ℕ :=
  (List.range (y2 - y1)).flatMap fun i =>
    (List.range (x2 - x1)).map fun j => D.val (y1 + i) (x1 + j)

/-- The shrunk centre region of the box as a flat sample list (empty when
the source's degeneracy test `center_x2 <= center_x1 or center_y2 <= center_y1`
fires). -/
def shrunkRegion (D : DepthMap) (b : Box) : List ℕ :=
  match centerBounds D b with
  | (cx1, cy1, cx2, cy2) =>
    if cx2 ≤ cx1 ∨ cy2 ≤ cy1 then []
    else regionSamples D cy1.toNat cy2.toNat cx1.toNat cx2.toNat

/-- The source's validity mask `(bbox_depth > 0) & (bbox_depth < 10000)`. -/
def validP (d : ℕ) : Bool := decide (0 < d ∧ d < 10000)

/-- `valid_depth`: the valid samples of the shrunk region. -/
def validSamples (D : DepthMap) (b : Box) : List ℕ :=
  (shrunkRegion D b).filter validP

/-- The spec's sample filter, written from the spec's words for comparison
with `validSamples`: samples "strictly within (0, 10000] mm", that is,
`0 < d ∧ d ≤ 10000` with the upper bound included. -/
def specValidSamples (D : DepthMap) (b : Box) : List ℕ :=
  (shrunkRegion D b).filter fun d => decide (0 < d ∧ d ≤ 10000)

/-- The valid samples as rationals (numpy promotes to float64 for the
statistics). -/
def validQ (D : DepthMap) (b : Box) : List ℚ :=
  List.map (fun n : ℕ => (n : ℚ)) (validSamples D b)

/-- The Boolean outlier test `|d - mean| <= DEPTH_OUTLIER_THRESHOLD * std`,
stated on squares: `(d - mean)^2 <= threshold^2 * var`.  This is equivalent
to the source's comparison because both of its sides are nonnegative. -/
def outlierKeep (m v d : ℚ) : Bool :=
  decide (qmul (qsub d m) (qsub d m) ≤
    qmul (qmul depthOutlierThreshold depthOutlierThreshold) v)

/-- Outlier filter and fallback applied to a sample list `xs`:
`filtered = xs[|xs - mean| <= THRESHOLD * std]`, returning
`mean(filtered)` when nonempty and the unfiltered mean otherwise
(`np.mean(filtered) if len(filtered) > 0 else mean_depth`). -/
def robustMean (xs : List ℚ) : ℚ :=
  if 0 < (xs.filter (outlierKeep (meanQ xs) (varQ xs))).length
  then meanQ (xs.filter (outlierKeep (meanQ xs) (varQ xs)))
  else meanQ xs

/-- The survivors of the outlier filter for a given depth map and box. -/
def survivorSamples (D : DepthMap) (b : Box) : List ℚ :=
  (validQ D b).filter (outlierKeep (meanQ (validQ D b)) (varQ (validQ D b)))

/-- Embedding of `calculate_depth_robust_center`: degenerate shrunk region
returns 0.0; fewer than 5 valid samples returns 0.0; otherwise the
outlier-filtered mean with unfiltered-mean fallback. -/
def calculate_depth_robust_center (D : DepthMap) (b : Box) : ℚ :=
  match centerBounds D b with
  | (cx1, cy1, cx2, cy2) =>
    if cx2 ≤ cx1 ∨ cy2 ≤ cy1 then 0
    else if (validQ D b).length < 5 then 0
    else robustMean (validQ D b)

/-! ## Frame Bus
Embedding of the `frame_queue` handling in camera_controller.py: the queue
is created with `Queue(maxsize=5)` (line 23) and fed with
`put_nowait` inside `try/except: pass` (lines 222-235), so a push onto a
full queue raises `queue.Full` and the new frame is skipped.  The queue
contents are modelled front-oldest. -/

/-- Fixed bus capacity, `Queue(maxsize=5)`. -/
def busCapacity : ℕ := 5

/-- One producer push: `put_nowait` wrapped in `except: pass` — on a full
queue the new element is dropped and the call never blocks. -/
def put_nowait {α : Type} (q : List α) (x : α) : List α :=
  if q.length < busCapacity then q ++ [x] else q

/-- A sequence of pushes with no intervening pops. -/
def pushSeq {α : Type} (q : List α) (xs : List α) : List α :=
  xs.foldl put_nowait q

/-! ## Detection pipeline
Embedding of `ObjectDetectionProcessor.process_frame` and the metadata
accumulator (object_detection_processor.py lines 145-270).  Frames are
opaque (ℕ identifiers); the external detector's outcome for a frame is an
`Except`: `.ok` carries the tracked raw detections, `.error` models the
detector raising.  The annotator is an opaque function parameter (the
source draws boxes/labels on a copy of the frame).  The statistics
dictionary and rolling processing-time window are not modelled: no claim
mentions them and they do not influence the modelled outputs. -/

/-- A tracked raw detection as produced by the external detector + tracker. -/
structure RawDet where
  bbox : Box
  class_id : Option ℤ
  tracker_id : Option ℤ
  confidence : Option ℚ
  class_name : String
deriving DecidableEq

/-- One serialized detection record (`detection_info` entry in the source). -/
structure DetInfo where
  tracker_id : Option ℤ
  class_id : Option ℤ
  class_name : String
  confidence : Option ℚ
  bbox : Box
  depth_mm : ℚ
  depth_m : ℚ
deriving DecidableEq

/-- Per-frame metadata: the success dictionary with `frame_number`,
`timestamp`, `processing_time_ms`, `detections`, or the error dictionary
`{'error': ...}` returned when the detector raises. -/
inductive FrameMeta where
  | ok (frame_number : ℕ) (timestamp : ℚ) (processing_time_ms : ℚ)
      (detections : List DetInfo)
  | err (msg : String)
deriving DecidableEq

/-- Mutable processor state: `model_loaded` flag, `frame_count`, and the
`detection_metadata` accumulator. -/
structure ProcState where
  model_loaded : Bool
  frame_count : ℕ
  detection_metadata : List FrameMeta
deriving DecidableEq

/-- Builds one `detection_info` entry: depth via the robust-centre
estimator, `depth_m = depth_mm / 1000 if depth_mm > 0 else 0.0`. -/
def mkDetInfo (depth : DepthMap) (r : RawDet) : DetInfo :=
  let d := calculate_depth_robust_center depth r.bbox
  { tracker_id := r.tracker_id
    class_id := r.class_id
    class_name := r.class_name
    confidence := r.confidence
    bbox := r.bbox
    depth_mm := d
    depth_m := if 0 < d then qdiv d 1000 else 0 }

/-- Embedding of `process_frame`: no model → error dict; detector raising
→ `(rgb_frame, {'error': 'Processing failed: ...'})` with the state
untouched; success → annotated frame, success metadata carrying the current
`frame_count`, and the counter incremented. -/
def process_frame (annotate : ℕ → List DetInfo → ℕ) (rgb : ℕ) (depth : DepthMap)
    (detRes : Except String (List RawDet)) (timestamp ptMs : ℚ)
    (st : ProcState) : ℕ × FrameMeta × ProcState :=
  if st.model_loaded = false then (rgb, .err "Model not loaded", st)
  else
    match detRes with
    | .error e => (rgb, .err ("Processing failed: " ++ e), st)
    | .ok dets =>
      let infos := dets.map (mkDetInfo depth)
      let meta := FrameMeta.ok st.frame_count timestamp ptMs infos
      (annotate rgb infos, meta, { st with frame_count := st.frame_count + 1 })

/-- `add_detection_metadata`: append one frame's metadata. -/
def add_detection_metadata (m : FrameMeta) (st : ProcState) : ProcState :=
  { st with detection_metadata := st.detection_metadata ++ [m] }

/-- `clear_metadata`: empty the accumulator and reset `frame_count` to 0. -/
def clear_metadata (st : ProcState) : ProcState :=
  { st with detection_metadata := [], frame_count := 0 }

/-- One recorded frame during a detection recording session: the stream
worker calls `process_frame` and, since it is recording with detection
enabled and the returned dict is always non-empty (truthy), appends the
metadata via `add_detection_metadata` (camera_controller.py lines 211-245). -/
def sessionStep (annotate : ℕ → List DetInfo → ℕ) (depth : DepthMap)
    (st : ProcState) (res : Except String (List RawDet)) : ProcState :=
  let r := process_frame annotate 0 depth res 0 0 st
  add_detection_metadata r.2.1 r.2.2

/-- A whole recording session with detection enabled: `start_recording`
calls `clear_metadata`, then each fed frame runs `sessionStep`. -/
def runRecordingSession (annotate : ℕ → List DetInfo → ℕ) (depth : DepthMap)
    (st : ProcState) (evs : List (Except String (List RawDet))) : ProcState :=
  evs.foldl (sessionStep annotate depth) (clear_metadata st)

/-- The `frame_number` fields of the accumulated metadata, in order
(error records carry none). -/
def numsOf (ms : List FrameMeta) : List ℕ :=
  ms.filterMap fun m =>
    match m with
    | .ok n _ _ _ => some n
    | .err _ => none

/-- Frame sequence numbers recorded in a processor state. -/
def recordedNumbers (st : ProcState) : List ℕ := numsOf st.detection_metadata

/-! ## Acquisition loop worker
Embedding of `CameraController._stream_worker` (camera_controller.py lines
180-256) as a step function over iteration events.  `frameOk` is a full
successful iteration (ending in a bus push), `pairIncomplete` models the
`continue` when a frame of the pair is missing, `detectionError` models the
inner `except` around detection (annotated frame falls back to the colour
image, iteration continues and still pushes), `stopRequest` models the
external clearing of `is_streaming`, and `streamError` models any exception
reaching the outer `except` (for example the 1000 ms `wait_for_frames`
timeout), whose handler prints and `break`s.  `runWorker` returns the final
state and the events left unconsumed when the loop exited. -/

/-- One iteration's outcome in the streaming worker. -/
inductive StreamEvent where
  | frameOk (bundle : ℕ)
  | pairIncomplete
  | detectionError (bundle : ℕ)
  | stopRequest
  | streamError
deriving DecidableEq

/-- Worker-visible state: the `is_streaming` flag and the frame bus. -/
structure WorkerState where
  is_streaming : Bool
  bus : List ℕ
deriving DecidableEq

/-- The `while self.is_streaming` loop of `_stream_worker`. -/
def runWorker : WorkerState → List StreamEvent → WorkerState × List StreamEvent
  | s, [] => (s, [])
  | s, e :: rest =>
    if s.is_streaming then
      match e with
      | .frameOk b => runWorker { s with bus := put_nowait s.bus b } rest
      | .pairIncomplete => runWorker s rest
      | .detectionError b => runWorker { s with bus := put_nowait s.bus b } rest
      | .stopRequest => runWorker { s with is_streaming := false } rest
      | .streamError => (s, rest)
    else (s, e :: rest)

/-! ## Recorder
Embedding of `CameraController.start_recording` (camera_controller.py lines
265-301): refuse when already recording, otherwise open the two sinks,
clear detection metadata when detection is enabled, and set the session
fields.  Video writers are modelled by the paths they are opened on. -/

/-- The recording-related fields of the controller plus the processor's
metadata accumulator and frame counter. -/
structure RecState where
  recording : Bool
  rgbWriter : Option String
  depthWriter : Option String
  procMeta : List FrameMeta
  procCount : ℕ
  recordStartTime : Option ℚ
  recordingOutputPath : Option String
deriving DecidableEq

/-- Path of the primary video sink:
`output_path + ("_detection.avi" if detection_enabled else "_rgb.avi")`. -/
def primarySinkPath (output_path : String) (detection_enabled : Bool) : String :=
  output_path ++ (if detection_enabled then "_detection.avi" else "_rgb.avi")

/-- Embedding of `start_recording`. -/
def start_recording (st : RecState) (output_path : String)
    (detection_enabled : Bool) (now : ℚ) : Bool × RecState :=
  if st.recording then (false, st)
  else
    (true,
     { recording := true
       rgbWriter := some (primarySinkPath output_path detection_enabled)
       depthWriter := some (output_path ++ "_depth.avi")
       procMeta := if detection_enabled then [] else st.procMeta
       procCount := if detection_enabled then 0 else st.procCount
       recordStartTime := some now
       recordingOutputPath := some output_path })

/-! ## Metadata sidecar
Embedding of `ObjectDetectionProcessor.save_detection_metadata`
(object_detection_processor.py lines 246-265) and the JSON value shape it
writes.  Python's `str.replace` replaces every non-overlapping occurrence
left to right; `pyReplace` mirrors that. -/

/-- A JSON value. -/
inductive JVal where
  | jint (n : ℤ)
  | jnum (x : ℚ)
  | jstr (s : String)
  | jnull
  | jarr (xs : List JVal)
  | jobj (fields : List (String × JVal))

/-- Does `pat` occur at the head of `s`? -/
def matchesAt : List Char → List Char → Bool
  | [], _ => true
  | _ :: _, [] => false
  | p :: ps, c :: cs => p == c && matchesAt ps cs

/-- Fuel-driven worker for `pyReplace` on a nonempty pattern `p :: ps`;
every step consumes one fuel and at least one character (a match consumes
`1 + ps.length` characters), so fuel equal to the string length is exact. -/
def replaceFuel (p : Char) (ps rep : List Char) : ℕ → List Char → List Char
  | _, [] => []
  | 0, s => s
  | fuel + 1, c :: s =>
    if matchesAt (p :: ps) (c :: s) then
      rep ++ replaceFuel p ps rep fuel (s.drop ps.length)
    else
      c :: replaceFuel p ps rep fuel s

/-- Python's `str.replace(pat, rep)`: replace every non-overlapping
occurrence of `pat` left to right (identity for the empty pattern, which
the source never uses). -/
def pyReplace (s pat rep : String) : String :=
  match pat.data with
  | [] => s
  | p :: ps => ⟨replaceFuel p ps rep.data s.data.length s.data⟩

/-- Serialization of an `Option ℤ` field (`None` becomes JSON null). -/
def jOfOptInt : Option ℤ → JVal
  | some n => .jint n
  | none => .jnull

/-- Serialization of an `Option ℚ` field. -/
def jOfOptQ : Option ℚ → JVal
  | some x => .jnum x
  | none => .jnull

/-- Serialization of one detection record, key order as in the source. -/
def detToJ (d : DetInfo) : JVal :=
  .jobj [("tracker_id", jOfOptInt d.tracker_id),
         ("class_id", jOfOptInt d.class_id),
         ("class_name", .jstr d.class_name),
         ("confidence", jOfOptQ d.confidence),
         ("bbox", .jarr [.jnum d.bbox.x1, .jnum d.bbox.y1,
                         .jnum d.bbox.x2, .jnum d.bbox.y2]),
         ("depth_mm", .jnum d.depth_mm),
         ("depth_m", .jnum d.depth_m)]

/-- Serialization of one frame's metadata. -/
def frameMetaToJ : FrameMeta → JVal
  | .ok n ts pt dets =>
    .jobj [("frame_number", .jint (n : ℤ)),
           ("timestamp", .jnum ts),
           ("processing_time_ms", .jnum pt),
           ("detections", .jarr (dets.map detToJ))]
  | .err msg => .jobj [("error", .jstr msg)]

/-- Embedding of `save_detection_metadata`: the sidecar path is
`output_path.replace('.avi', '_detections.json').replace('.mp4', '_detections.json')`
and the document is the four-field object written by the source. -/
def save_detection_metadata (output_path : String) (st : ProcState)
    (model_path : String) : String × JVal :=
  (pyReplace (pyReplace output_path ".avi" "_detections.json") ".mp4" "_detections.json",
   .jobj [("total_frames", .jint (st.detection_metadata.length : ℤ)),
          ("model_path", .jstr model_path),
          ("config", .jobj [("center_region_ratio", .jnum centerRegionRatio),
                            ("depth_outlier_threshold", .jnum depthOutlierThreshold),
                            ("yolo_input_size", .jint yoloInputSize)]),
          ("frames", .jarr (st.detection_metadata.map frameMetaToJ))])

/-- Sidecar written by `stop_recording` with detection enabled: the source
passes the primary sink's path `recording_output_path + "_detection.avi"`
to `save_detection_metadata` (camera_controller.py lines 318-324). -/
def stopRecordingSidecar (outputPathBase : String) (st : ProcState)
    (model_path : String) : String × JVal :=
  save_detection_metadata (outputPathBase ++ "_detection.avi") st model_path

/-- The field list of a JSON object (empty for non-objects). -/
def objFields : JVal → List (String × JVal)
  | .jobj fs => fs
  | _ => []

/-- The key list of a JSON object. -/
def fieldKeys (j : JVal) : List String := (objFields j).map Prod.fst

/-- Field lookup in a JSON object. -/
def lookupField (j : JVal) (k : String) : Option JVal :=
  (objFields j).lookup k

/-- The `config` sub-object of a sidecar document. -/
def configOf (j : JVal) : JVal := (lookupField j "config").getD .jnull

/-! ## Concrete instances used by witnesses and counterexamples -/

/-- A 1×7 depth frame whose samples are all 0 (no valid depth anywhere). -/
def depthAllZero : DepthMap := ⟨1, 7, fun _ _ => 0⟩

/-- A 1×7 depth frame whose samples are all exactly 10000 mm. -/
def depthAll10000 : DepthMap := ⟨1, 7, fun _ _ => 10000⟩

/-- A 1×7 depth frame uniformly 1500 mm. -/
def depthAll1500 : DepthMap := ⟨1, 7, fun _ _ => 1500⟩

/-- A 1×7 depth frame uniformly 1600 mm (the 1500 frame shifted by 100). -/
def depthAll1600 : DepthMap := ⟨1, 7, fun _ _ => 1600⟩

/-- Bounding box (0,0,7,1): its shrunk centre region inside a 1×7 frame is
row 0, columns 1..5 (margins `int(7*0.4/2) = 1` and `int(1*0.4/2) = 0`),
exactly 5 samples. -/
def boxWide7 : Box := ⟨0, 0, 7, 1⟩

/-- A processor state with a loaded model and empty accumulator. -/
def procState0 : ProcState := ⟨true, 0, []⟩

/-- An opaque annotator used by witnesses (any function works). -/
def annotate0 : ℕ → List DetInfo → ℕ := fun f _ => f + 1

/-- An active recording session state used by the C9 witness. -/
def recActive : RecState :=
  ⟨true, some "runA_detection.avi", some "runA_depth.avi",
   [FrameMeta.err "x"], 3, some 17, some "runA"⟩

end Realtime

/-! ## Bridge lemmas: reducible arithmetic equals the field operations -/

namespace Realtime

theorem qadd_eq (a b : ℚ) : qadd a b = a + b := by
  have ha : ((a.den : ℚ)) ≠ 0 := by exact_mod_cast a.den_nz
  have hb : ((b.den : ℚ)) ≠ 0 := by exact_mod_cast b.den_nz
  rw [qadd, Rat.mkRat_eq_divInt, Rat.divInt_eq_div]
  conv_rhs => rw [← Rat.num_div_den a, ← Rat.num_div_den b]
  rw [div_add_div _ _ ha hb]
  push_cast
  ring_nf

theorem qsub_eq (a b : ℚ) : qsub a b = a - b := by
  have ha : ((a.den : ℚ)) ≠ 0 := by exact_mod_cast a.den_nz
  have hb : ((b.den : ℚ)) ≠ 0 := by exact_mod_cast b.den_nz
  rw [qsub, Rat.mkRat_eq_divInt, Rat.divInt_eq_div]
  conv_rhs => rw [← Rat.num_div_den a, ← Rat.num_div_den b]
  rw [div_sub_div _ _ ha hb]
  push_cast
  ring_nf

theorem qmul_eq (a b : ℚ) : qmul a b = a * b := by
  have ha : ((a.den : ℚ)) ≠ 0 := by exact_mod_cast a.den_nz
  have hb : ((b.den : ℚ)) ≠ 0 := by exact_mod_cast b.den_nz
  rw [qmul, Rat.mkRat_eq_divInt, Rat.divInt_eq_div]
  conv_rhs => rw [← Rat.num_div_den a, ← Rat.num_div_den b]
  rw [div_mul_div_comm]
  push_cast
  ring_nf

theorem qdiv_eq (a b : ℚ) : qdiv a b = a / b := by
  rcases eq_or_ne b 0 with rfl | hb
  · simp [qdiv, Rat.divInt_eq_div]
  · have ha : ((a.den : ℚ)) ≠ 0 := by exact_mod_cast a.den_nz
    have hbd : ((b.den : ℚ)) ≠ 0 := by exact_mod_cast b.den_nz
    have hbn : ((b.num : ℚ)) ≠ 0 := by
      exact_mod_cast Rat.num_ne_zero.mpr hb
    rw [qdiv, Rat.divInt_eq_div]
    conv_rhs => rw [← Rat.num_div_den a, ← Rat.num_div_den b]
    push_cast
    rw [div_div_div_eq]

theorem qsum_eq (xs : List ℚ) : qsum xs = xs.sum := by
  induction xs with
  | nil => rfl
  | cons x xs ih => rw [qsum, qadd_eq, ih, List.sum_cons]

theorem meanQ_eq (xs : List ℚ) : meanQ xs = xs.sum / (xs.length : ℚ) := by
  rw [meanQ, qdiv_eq, qsum_eq]

theorem varQ_eq (xs : List ℚ) :
    varQ xs = ((xs.map fun x => (x - meanQ xs) ^ 2).sum) / (xs.length : ℚ) := by
  rw [varQ, qdiv_eq, qsum_eq]
  congr 2
  apply List.map_congr_left
  intro x _
  rw [qmul_eq, qsub_eq, sq]

theorem outlierKeep_iff (m v d : ℚ) :
    outlierKeep m v d = true ↔ (d - m) ^ 2 ≤ depthOutlierThreshold ^ 2 * v := by
  simp only [outlierKeep, decide_eq_true_eq, qmul_eq, qsub_eq, pow_two]

theorem depthOutlierThreshold_eq : depthOutlierThreshold = 2 := rfl

/-! ## Statistics lemmas -/

theorem length_cast_ne_zero {xs : List ℚ} (h : xs ≠ []) : ((xs.length : ℚ)) ≠ 0 := by
  have : 0 < xs.length := List.length_pos.mpr h
  exact_mod_cast Nat.pos_iff_ne_zero.mp this

theorem sum_map_add_const (xs : List ℚ) (k : ℚ) :
    (xs.map fun x => x + k).sum = xs.sum + k * xs.length := by
  induction xs with
  | nil => simp
  | cons x xs ih =>
    simp only [List.map_cons, List.sum_cons, ih, List.length_cons]
    push_cast
    ring

theorem meanQ_shift (xs : List ℚ) (k : ℚ) (h : xs ≠ []) :
    meanQ (xs.map fun x => x + k) = meanQ xs + k := by
  have hlen := length_cast_ne_zero h
  rw [meanQ_eq, meanQ_eq, List.length_map, sum_map_add_const]
  field_simp

theorem varQ_shift (xs : List ℚ) (k : ℚ) :
    varQ (xs.map fun x => x + k) = varQ xs := by
  rcases eq_or_ne xs [] with rfl | h
  · simp
  · rw [varQ_eq, varQ_eq, List.length_map, meanQ_shift xs k h, List.map_map]
    congr 2
    apply List.map_congr_left
    intro x _
    simp only [Function.comp_apply]
    ring_nf

theorem meanQ_const (xs : List ℚ) (v : ℚ) (hv : ∀ x ∈ xs, x = v) (h : xs ≠ []) :
    meanQ xs = v := by
  have hlen := length_cast_ne_zero h
  rw [meanQ_eq, List.sum_eq_card_nsmul xs v hv, nsmul_eq_mul]
  field_simp

theorem varQ_const (xs : List ℚ) (v : ℚ) (hv : ∀ x ∈ xs, x = v) :
    varQ xs = 0 := by
  rcases eq_or_ne xs [] with rfl | h
  · simp [varQ_eq]
  · rw [varQ_eq]
    have : (xs.map fun x => (x - meanQ xs) ^ 2).sum = 0 := by
      apply List.sum_eq_zero
      intro y hy
      rcases List.mem_map.mp hy with ⟨x, hx, rfl⟩
      rw [hv x hx, meanQ_const xs v hv h]
      ring
    rw [this, zero_div]

theorem sum_lt_mul_length (xs : List ℚ) (B : ℚ) (h : xs ≠ [])
    (hB : ∀ x ∈ xs, x < B) : xs.sum < B * xs.length := by
  induction xs with
  | nil => exact absurd rfl h
  | cons x t ih =>
    rcases eq_or_ne t [] with rfl | ht
    · simpa using hB x (List.mem_cons_self x [])
    · have h1 : x < B := hB x (List.mem_cons_self x t)
      have h2 : t.sum < B * t.length := ih ht fun y hy => hB y (List.mem_cons_of_mem x hy)
      simp only [List.sum_cons, List.length_cons]
      push_cast
      nlinarith

theorem meanQ_mem_bounds (xs : List ℚ) (B : ℚ) (h : xs ≠ [])
    (hB : ∀ x ∈ xs, 0 < x ∧ x < B) : 0 < meanQ xs ∧ meanQ xs < B := by
  have hlen : (0 : ℚ) < xs.length := by
    exact_mod_cast List.length_pos.mpr h
  have hpos : 0 < xs.sum := List.sum_pos xs (fun x hx => (hB x hx).1) h
  have hlt : xs.sum < B * xs.length := sum_lt_mul_length xs B h fun x hx => (hB x hx).2
  rw [meanQ_eq]
  constructor
  · exact div_pos hpos hlen
  · rw [div_lt_iff hlen]
    linarith [hlt]

end Realtime

/-! ## Estimator plumbing lemmas -/

namespace Realtime

theorem validSamples_mem (D : DepthMap) (b : Box) {d : ℕ}
    (hd : d ∈ validSamples D b) : 0 < d ∧ d < 10000 := by
  have := (List.mem_filter.mp hd).2
  simpa [validP] using this

theorem validQ_length (D : DepthMap) (b : Box) :
    (validQ D b).length = (validSamples D b).length := by
  rw [validQ, List.length_map]

theorem validQ_mem_bounds (D : DepthMap) (b : Box) :
    ∀ x ∈ validQ D b, 0 < x ∧ x < 10000 := by
  intro x hx
  rw [validQ] at hx
  rcases List.mem_map.mp hx with ⟨n, hn, rfl⟩
  have h := validSamples_mem D b hn
  constructor
  · exact_mod_cast h.1
  · exact_mod_cast h.2

theorem shrunkRegion_nil_of_degen (D : DepthMap) (b : Box)
    {cx1 cy1 cx2 cy2 : ℤ} (hcb : centerBounds D b = (cx1, cy1, cx2, cy2))
    (hdeg : cx2 ≤ cx1 ∨ cy2 ≤ cy1) : shrunkRegion D b = [] := by
  rw [shrunkRegion, hcb]
  simp [hdeg]

theorem calc_of_lt5 (D : DepthMap) (b : Box)
    (h : (validSamples D b).length < 5) :
    calculate_depth_robust_center D b = 0 := by
  rcases hcb : centerBounds D b with ⟨cx1, cy1, cx2, cy2⟩
  rw [calculate_depth_robust_center, hcb]
  by_cases hdeg : cx2 ≤ cx1 ∨ cy2 ≤ cy1
  · simp [hdeg]
  · have : (validQ D b).length < 5 := by rw [validQ_length]; exact h
    simp [hdeg, this]

theorem calc_of_ge5 (D : DepthMap) (b : Box)
    (h : 5 ≤ (validSamples D b).length) :
    calculate_depth_robust_center D b = robustMean (validQ D b) := by
  rcases hcb : centerBounds D b with ⟨cx1, cy1, cx2, cy2⟩
  rw [calculate_depth_robust_center, hcb]
  by_cases hdeg : cx2 ≤ cx1 ∨ cy2 ≤ cy1
  · have hnil : shrunkRegion D b = [] := shrunkRegion_nil_of_degen D b hcb hdeg
    rw [validSamples, hnil] at h
    simp at h
  · have h5 : ¬ (validQ D b).length < 5 := by rw [validQ_length]; omega
    simp [hdeg, h5]

theorem validQ_ne_nil_of_ge5 (D : DepthMap) (b : Box)
    (h : 5 ≤ (validSamples D b).length) : validQ D b ≠ [] := by
  intro hnil
  have := validQ_length D b
  rw [hnil] at this
  simp at this
  omega

/-! ## robustMean lemmas -/

theorem robustMean_const (xs : List ℚ) (v : ℚ) (hv : ∀ x ∈ xs, x = v)
    (h : xs ≠ []) : robustMean xs = v := by
  have hm := meanQ_const xs v hv h
  have hvar := varQ_const xs v hv
  have hall : xs.filter (outlierKeep (meanQ xs) (varQ xs)) = xs := by
    apply List.filter_eq_self.mpr
    intro x hx
    rw [outlierKeep_iff, hm, hvar, hv x hx]
    simp
  rw [robustMean, hall, if_pos (List.length_pos.mpr h), hm]

theorem robustMean_bounds (xs : List ℚ) (B : ℚ) (h : xs ≠ [])
    (hB : ∀ x ∈ xs, 0 < x ∧ x < B) :
    0 < robustMean xs ∧ robustMean xs < B := by
  rw [robustMean]
  by_cases hl : 0 < (xs.filter (outlierKeep (meanQ xs) (varQ xs))).length
  · rw [if_pos hl]
    apply meanQ_mem_bounds _ B (List.length_pos.mp hl)
    intro x hx
    exact hB x (List.mem_of_mem_filter hx)
  · rw [if_neg hl]
    exact meanQ_mem_bounds xs B h hB

theorem outlierKeep_shift (m v k x : ℚ) :
    outlierKeep (m + k) v (x + k) = outlierKeep m v x := by
  have hiff : (outlierKeep (m + k) v (x + k) = true) ↔ (outlierKeep m v x = true) := by
    rw [outlierKeep_iff, outlierKeep_iff,
      show x + k - (m + k) = x - m from by ring]
  cases hx : outlierKeep m v x
  · exact Bool.eq_false_iff.mpr fun hh => by
      have := hiff.mp hh
      rw [hx] at this
      exact Bool.false_ne_true this
  · exact hiff.mpr hx

theorem filter_of_map (p : ℚ → Bool) (f : ℚ → ℚ) (l : List ℚ) :
    (l.map f).filter p = (l.filter fun x => p (f x)).map f := by
  induction l with
  | nil => rfl
  | cons x t ih =>
    by_cases hp : p (f x)
    · simp [List.filter_cons, hp, ih]
    · simp [List.filter_cons, hp, ih]

theorem robustMean_shift (xs : List ℚ) (k : ℚ) (h : xs ≠ []) :
    robustMean (xs.map fun x => x + k) = robustMean xs + k := by
  have hm := meanQ_shift xs k h
  have hv := varQ_shift xs k
  have hfil :
      (xs.map fun x => x + k).filter
        (outlierKeep (meanQ (xs.map fun x => x + k)) (varQ (xs.map fun x => x + k)))
        = (xs.filter (outlierKeep (meanQ xs) (varQ xs))).map fun x => x + k := by
    rw [hm, hv, filter_of_map]
    congr 1
    apply List.filter_congr
    intro x _
    rw [outlierKeep_shift]
  rw [robustMean, robustMean, hfil, List.length_map]
  by_cases hl : 0 < (xs.filter (outlierKeep (meanQ xs) (varQ xs))).length
  · rw [if_pos hl, if_pos hl, meanQ_shift _ k (List.length_pos.mp hl)]
  · rw [if_neg hl, if_neg hl, meanQ_shift xs k h]

end Realtime

/-! ## Shift plumbing: uniformly shifting the valid samples of a depth map -/

namespace Realtime

theorem centerBounds_congr (D D' : DepthMap) (b : Box)
    (hH : D'.height = D.height) (hW : D'.width = D.width) :
    centerBounds D' b = centerBounds D b := by
  simp only [centerBounds, hH, hW]

theorem regionSamples_map (D D' : DepthMap) (f : ℕ → ℕ)
    (hval : ∀ i j, D'.val i j = f (D.val i j)) (y1 y2 x1 x2 : ℕ) :
    regionSamples D' y1 y2 x1 x2 = (regionSamples D y1 y2 x1 x2).map f := by
  have hfun : D'.val = fun i j => f (D.val i j) :=
    funext fun i => funext fun j => hval i j
  simp only [regionSamples, hfun, List.map_flatMap, List.map_map]
  rfl

/-- Applies the sample-shift transformation: valid samples move by `c`,
invalid samples are untouched (and stay invalid). -/
def shiftVal (c : ℕ) (d : ℕ) : ℕ :=
  if 0 < d ∧ d < 10000 then d + c else d

theorem shrunkRegion_shift (D D' : DepthMap) (b : Box) (c : ℕ)
    (hH : D'.height = D.height) (hW : D'.width = D.width)
    (hval : ∀ i j, D'.val i j = shiftVal c (D.val i j)) :
    shrunkRegion D' b = (shrunkRegion D b).map (shiftVal c) := by
  rw [shrunkRegion, shrunkRegion, centerBounds_congr D D' b hH hW]
  rcases centerBounds D b with ⟨cx1, cy1, cx2, cy2⟩
  by_cases hdeg : cx2 ≤ cx1 ∨ cy2 ≤ cy1
  · simp [hdeg]
  · simp only [if_neg hdeg]
    exact regionSamples_map D D' (shiftVal c) hval _ _ _ _

theorem filter_validP_shift (c : ℕ) (xs : List ℕ)
    (hb : ∀ d ∈ xs, validP d = true → d + c < 10000) :
    (xs.map (shiftVal c)).filter validP = (xs.filter validP).map (· + c) := by
  induction xs with
  | nil => rfl
  | cons x t ih =>
    have ih' := ih fun d hd hv => hb d (List.mem_cons_of_mem x hd) hv
    by_cases hx : 0 < x ∧ x < 10000
    · have hvx : validP x = true := by simp [validP, hx]
      have hx' : validP (x + c) = true := by
        have := hb x (List.mem_cons_self x t) hvx
        simp [validP]
        omega
      simp only [List.map_cons, shiftVal, if_pos hx, List.filter_cons, hvx, hx',
        if_pos, ih']
    · have hvx : validP x = false := by
        simp only [validP, decide_eq_false_iff_not]
        exact hx
      have hsx : shiftVal c x = x := by rw [shiftVal, if_neg hx]
      simp only [List.map_cons, hsx, List.filter_cons, hvx, ih']
      simp

theorem validSamples_shift (D D' : DepthMap) (b : Box) (c : ℕ)
    (hH : D'.height = D.height) (hW : D'.width = D.width)
    (hval : ∀ i j, D'.val i j = shiftVal c (D.val i j))
    (hkeep : ∀ d ∈ validSamples D b, d + c < 10000) :
    validSamples D' b = (validSamples D b).map (· + c) := by
  rw [validSamples, shrunkRegion_shift D D' b c hH hW hval,
    filter_validP_shift c _ fun d hd hv =>
      hkeep d (List.mem_filter.mpr ⟨hd, hv⟩), validSamples]

theorem validQ_shift (D D' : DepthMap) (b : Box) (c : ℕ)
    (hH : D'.height = D.height) (hW : D'.width = D.width)
    (hval : ∀ i j, D'.val i j = shiftVal c (D.val i j))
    (hkeep : ∀ d ∈ validSamples D b, d + c < 10000) :
    validQ D' b = (validQ D b).map fun x => x + (c : ℚ) := by
  rw [validQ, validQ, validSamples_shift D D' b c hH hW hval hkeep,
    List.map_map, List.map_map]
  apply List.map_congr_left
  intro n _
  simp only [Function.comp_apply]
  push_cast
  ring

end Realtime

/-! ## Claim theorems: depth estimator -/

namespace Realtime

/-- C3 (counterexample): the claim says `estimate` gathers the depth
samples strictly within (0, 10000] mm — upper bound included — from the
shrunk centre region.  On a 1×7 frame whose shrunk region holds exactly 5
samples of value 10000 mm, the samples the source gathers
(`validSamples`, mask `0 < d < 10000`) differ from the claim's
(0, 10000] filter (`specValidSamples`): the claim's filter keeps all 5
samples while the source keeps none and returns 0.0. -/
theorem C3_counterexample :
    ¬ (validSamples depthAll10000 boxWide7 = specValidSamples depthAll10000 boxWide7) ∧
    5 ≤ (specValidSamples depthAll10000 boxWide7).length ∧
    calculate_depth_robust_center depthAll10000 boxWide7 = 0 := by
  refine ⟨by decide, by decide, ?_⟩
  apply calc_of_lt5
  decide

/-- C3 (amended): `estimate` gathers depth samples strictly inside
(0, 10000) mm — both bounds excluded — from the shrunk centre region
(ratio 0.6 retained), and when that region contains fewer than 5 such
valid samples it returns 0.0. -/
theorem C3_fewer_than_five_zero (D : DepthMap) (b : Box)
    (h : (validSamples D b).length < 5) :
    calculate_depth_robust_center D b = 0 ∧
      ∀ d ∈ validSamples D b, 0 < d ∧ d < 10000 :=
  ⟨calc_of_lt5 D b h, fun _ hd => validSamples_mem D b hd⟩

/-- C3 witness: a 1×7 all-zero frame has no valid samples, and the
estimator returns 0.0 on it. -/
theorem C3_witness :
    (validSamples depthAllZero boxWide7).length < 5 ∧
      calculate_depth_robust_center depthAllZero boxWide7 = 0 :=
  ⟨by decide, (C3_fewer_than_five_zero depthAllZero boxWide7 (by decide)).1⟩

/-- C4: with at least 5 valid samples, `estimate` returns the mean of the
samples surviving the 2-standard-deviation outlier filter, or the
unfiltered mean when the filter removes everything; in particular a
uniform region yields exactly the uniform value (so a shrunk centre
region uniformly 1500 mm yields 1500.0). -/
theorem C4_robust_mean (D : DepthMap) (b : Box)
    (h5 : 5 ≤ (validSamples D b).length) :
    (0 < (survivorSamples D b).length →
      calculate_depth_robust_center D b = meanQ (survivorSamples D b)) ∧
    ((survivorSamples D b).length = 0 →
      calculate_depth_robust_center D b = meanQ (validQ D b)) ∧
    ∀ v : ℕ, (∀ d ∈ validSamples D b, d = v) →
      calculate_depth_robust_center D b = (v : ℚ) := by
  have hc := calc_of_ge5 D b h5
  refine ⟨?_, ?_, ?_⟩
  · intro hpos
    have hpos' : 0 < ((validQ D b).filter
        (outlierKeep (meanQ (validQ D b)) (varQ (validQ D b)))).length := hpos
    rw [hc, robustMean, if_pos hpos']
    rfl
  · intro hzero
    have h0 : (survivorSamples D b).length = 0 := hzero
    rw [survivorSamples] at h0
    have hneg : ¬ 0 < ((validQ D b).filter
        (outlierKeep (meanQ (validQ D b)) (varQ (validQ D b)))).length := by omega
    rw [hc, robustMean, if_neg hneg]
  · intro v hv
    have hne := validQ_ne_nil_of_ge5 D b h5
    have hQ : ∀ x ∈ validQ D b, x = (v : ℚ) := by
      intro x hx
      rw [validQ] at hx
      rcases List.mem_map.mp hx with ⟨n, hn, rfl⟩
      exact_mod_cast congrArg (fun m : ℕ => (m : ℚ)) (hv n hn)
    rw [hc, robustMean_const (validQ D b) (v : ℚ) hQ hne]

/-- C4 witness: on a 1×7 frame uniformly 1500 mm with box (0,0,7,1) the
shrunk centre region holds 5 samples of 1500, and `estimate` returns
exactly 1500. -/
theorem C4_witness :
    5 ≤ (validSamples depthAll1500 boxWide7).length ∧
      calculate_depth_robust_center depthAll1500 boxWide7 = ((1500 : ℕ) : ℚ) :=
  ⟨by decide,
   (C4_robust_mean depthAll1500 boxWide7 (by decide)).2.2 1500 (by decide)⟩

/-- C7: `estimate` commutes with uniformly shifting the valid depth
samples: if every valid sample shifted by `c` stays valid (below
10000 mm), the region yields at least 5 valid samples (so a mean is
returned at all), and every sample lies within the outlier threshold,
then the returned mean shifts by exactly `c`. -/
theorem C7_shift_invariance (D D' : DepthMap) (b : Box) (c : ℕ)
    (hH : D'.height = D.height) (hW : D'.width = D.width)
    (hval : ∀ i j, D'.val i j = shiftVal c (D.val i j))
    (h5 : 5 ≤ (validSamples D b).length)
    (hkeep : ∀ d ∈ validSamples D b, d + c < 10000)
    (hthr : ∀ d ∈ validQ D b,
      (d - meanQ (validQ D b)) ^ 2 ≤ depthOutlierThreshold ^ 2 * varQ (validQ D b)) :
    calculate_depth_robust_center D' b = calculate_depth_robust_center D b + c := by
  have hvs := validSamples_shift D D' b c hH hW hval hkeep
  have hvq := validQ_shift D D' b c hH hW hval hkeep
  have hne := validQ_ne_nil_of_ge5 D b h5
  have h5' : 5 ≤ (validSamples D' b).length := by
    rw [hvs, List.length_map]
    exact h5
  rw [calc_of_ge5 D' b h5', calc_of_ge5 D b h5, hvq,
    robustMean_shift (validQ D b) (c : ℚ) hne]

/-- C7 witness: shifting the uniform 1500 mm frame by 100 mm to the
uniform 1600 mm frame shifts the estimate from 1500 to 1600. -/
theorem C7_witness :
    5 ≤ (validSamples depthAll1500 boxWide7).length ∧
      (∀ d ∈ validSamples depthAll1500 boxWide7, d + 100 < 10000) ∧
      calculate_depth_robust_center depthAll1600 boxWide7 =
        calculate_depth_robust_center depthAll1500 boxWide7 + (100 : ℕ) :=
  ⟨by decide, by decide,
   C7_shift_invariance depthAll1500 depthAll1600 boxWide7 100 rfl rfl
     (fun _ _ => rfl) (by decide) (by decide)
     (by
       intro d hd
       have hall : ∀ x ∈ validQ depthAll1500 boxWide7, x = (1500 : ℚ) := by decide
       rw [hall d hd, meanQ_const _ (1500 : ℚ) hall (by decide),
         varQ_const _ (1500 : ℚ) hall]
       simp)⟩

/-- C10: for every depth map and box — including degenerate or
out-of-bounds boxes — the estimate is either exactly 0 or strictly
between 0 and 10000 mm, on the filtered path and on the unfiltered-mean
fallback path alike. -/
theorem C10_estimate_range (D : DepthMap) (b : Box) :
    calculate_depth_robust_center D b = 0 ∨
      (0 < calculate_depth_robust_center D b ∧
        calculate_depth_robust_center D b < 10000) := by
  by_cases h5 : (validSamples D b).length < 5
  · exact Or.inl (calc_of_lt5 D b h5)
  · right
    push_neg at h5
    rw [calc_of_ge5 D b h5]
    exact robustMean_bounds (validQ D b) 10000
      (validQ_ne_nil_of_ge5 D b h5) (validQ_mem_bounds D b)

end Realtime

/-! ## Frame Bus and worker lemmas -/

namespace Realtime

theorem pushSeq_take {α : Type} (xs : List α) :
    ∀ q : List α, q.length ≤ busCapacity →
      pushSeq q xs = q ++ xs.take (busCapacity - q.length) := by
  induction xs with
  | nil => intro q _; simp [pushSeq]
  | cons x t ih =>
    intro q hq
    by_cases hfull : q.length < busCapacity
    · have hstep : put_nowait q x = q ++ [x] := if_pos hfull
      have hlen : (q ++ [x]).length ≤ busCapacity := by
        simp [List.length_append]
        omega
      calc pushSeq q (x :: t)
          = pushSeq (q ++ [x]) t := by simp [pushSeq, List.foldl_cons, hstep]
        _ = (q ++ [x]) ++ t.take (busCapacity - (q ++ [x]).length) := ih _ hlen
        _ = q ++ (x :: t).take (busCapacity - q.length) := by
            have hc : busCapacity - q.length = (busCapacity - (q.length + 1)) + 1 := by
              omega
            simp [List.length_append, hc, List.take_succ_cons]
    · have hstep : put_nowait q x = q := if_neg hfull
      have hq5 : q.length = busCapacity := by omega
      calc pushSeq q (x :: t)
          = pushSeq q t := by simp [pushSeq, List.foldl_cons, hstep]
        _ = q ++ t.take (busCapacity - q.length) := ih q hq
        _ = q ++ (x :: t).take (busCapacity - q.length) := by simp [hq5]

theorem runWorker_not_streaming (s : WorkerState) (evs : List StreamEvent)
    (h : s.is_streaming = false) : runWorker s evs = (s, evs) := by
  cases evs with
  | nil => rfl
  | cons e rest => simp [runWorker, h]

/-! ## Claim theorems: Frame Bus (C1) -/

/-- C1 (counterexample): the claim says a push onto a full capacity-5 bus
discards the oldest resident bundle, so 8 sequential pushes with no pops
would retain the 5 most recent bundles [4,5,6,7,8].  The source wraps
`put_nowait` in `except: pass`, so the full queue keeps its residents and
the new bundle is skipped: after pushing 1..8 the bus holds [1,2,3,4,5]. -/
theorem C1_counterexample :
    ¬ (pushSeq ([] : List ℕ) [1, 2, 3, 4, 5, 6, 7, 8] = [4, 5, 6, 7, 8]) := by
  decide

/-- C1 (amended): a push onto a full bus discards the newly offered bundle
and leaves the residents unchanged (never blocking the producer), so after
any sequence of pushes with no pops a bus starting empty holds exactly the
earliest `busCapacity` bundles, in push order; in particular 8 pushes on a
capacity-5 bus retain pushes 1..5. -/
theorem C1_drop_newest :
    (∀ (q : List ℕ) (x : ℕ), busCapacity ≤ q.length → put_nowait q x = q) ∧
    ∀ xs : List ℕ, pushSeq ([] : List ℕ) xs = xs.take busCapacity := by
  constructor
  · intro q x hq
    exact if_neg (by omega)
  · intro xs
    simpa using pushSeq_take xs [] (by simp)

/-- C1 witness: a full bus drops the push of 9, and pushing 1..8 onto the
empty bus leaves the first five bundles. -/
theorem C1_witness :
    put_nowait [1, 2, 3, 4, 5] 9 = [1, 2, 3, 4, 5] ∧
      pushSeq ([] : List ℕ) [1, 2, 3, 4, 5, 6, 7, 8] = [1, 2, 3, 4, 5] :=
  ⟨C1_drop_newest.1 [1, 2, 3, 4, 5] 9 (by decide),
   (C1_drop_newest.2 [1, 2, 3, 4, 5, 6, 7, 8]).trans (by decide)⟩

/-! ## Claim theorems: acquisition loop error handling (C2) -/

/-- C2 (counterexample): the claim says no error in the streaming path
(including a frame-pair wait timeout, which the spec calls recoverable)
terminates the loop except an explicit stop request, and that a loop that
exits on its own leaves `is_streaming = false`.  Running the worker on a
trace containing a single stream-path error and no stop request falsifies
both parts: the loop exits with events left unconsumed while
`is_streaming` is still `true` (the source's outer `except` handler
`break`s on the first error and never clears the flag). -/
theorem C2_counterexample :
    ¬ ((StreamEvent.stopRequest ∉
          ([StreamEvent.streamError, StreamEvent.pairIncomplete] : List StreamEvent)) →
        ((runWorker ⟨true, []⟩ [StreamEvent.streamError, StreamEvent.pairIncomplete]).2 = [] ∨
          (runWorker ⟨true, []⟩
              [StreamEvent.streamError, StreamEvent.pairIncomplete]).1.is_streaming = false)) := by
  decide

/-- C2 (amended): an incomplete frame pair or a detection-processing error
never terminates the loop — on a trace free of outer stream errors and
stop requests the worker consumes every event and keeps streaming; the
first exception that reaches the outer handler (for example a
`wait_for_frames` timeout) terminates the loop immediately, leaving
`is_streaming` still `true`; `is_streaming` becomes false only through an
explicit stop request. -/
theorem C2_error_break (bus : List ℕ) (evs rest : List StreamEvent)
    (hne : StreamEvent.streamError ∉ evs)
    (hns : StreamEvent.stopRequest ∉ evs) :
    ((runWorker ⟨true, bus⟩ evs).2 = [] ∧
      (runWorker ⟨true, bus⟩ evs).1.is_streaming = true) ∧
    ((runWorker ⟨true, bus⟩ (evs ++ StreamEvent.streamError :: rest)).2 = rest ∧
      (runWorker ⟨true, bus⟩
          (evs ++ StreamEvent.streamError :: rest)).1.is_streaming = true) ∧
    (runWorker ⟨true, bus⟩
        (evs ++ StreamEvent.stopRequest :: rest)).1.is_streaming = false := by
  induction evs generalizing bus with
  | nil =>
    refine ⟨⟨rfl, rfl⟩, ⟨rfl, rfl⟩, ?_⟩
    simp only [List.nil_append]
    have h := runWorker_not_streaming ⟨false, bus⟩ rest rfl
    simp [runWorker, h]
  | cons e t ih =>
    have hne' : StreamEvent.streamError ∉ t := fun h => hne (List.mem_cons_of_mem e h)
    have hns' : StreamEvent.stopRequest ∉ t := fun h => hns (List.mem_cons_of_mem e h)
    cases e with
    | frameOk b => simpa [runWorker] using ih (put_nowait bus b) hne' hns'
    | pairIncomplete => simpa [runWorker] using ih bus hne' hns'
    | detectionError b => simpa [runWorker] using ih (put_nowait bus b) hne' hns'
    | stopRequest => exact absurd (List.mem_cons_self _ _) hns
    | streamError => exact absurd (List.mem_cons_self _ _) hne

/-- C2 witness: on the trace [pairIncomplete, detectionError 7] the worker
consumes everything and keeps streaming; appending a stream error makes it
exit right there with `is_streaming` still true; appending a stop request
instead clears the flag. -/
theorem C2_witness :
    ((runWorker ⟨true, []⟩
        [StreamEvent.pairIncomplete, StreamEvent.detectionError 7]).2 = [] ∧
      (runWorker ⟨true, []⟩
          [StreamEvent.pairIncomplete, StreamEvent.detectionError 7]).1.is_streaming = true) ∧
    ((runWorker ⟨true, []⟩
        ([StreamEvent.pairIncomplete, StreamEvent.detectionError 7] ++
          StreamEvent.streamError :: [StreamEvent.frameOk 3])).2 = [StreamEvent.frameOk 3] ∧
      (runWorker ⟨true, []⟩
          ([StreamEvent.pairIncomplete, StreamEvent.detectionError 7] ++
            StreamEvent.streamError :: [StreamEvent.frameOk 3])).1.is_streaming = true) ∧
    (runWorker ⟨true, []⟩
        ([StreamEvent.pairIncomplete, StreamEvent.detectionError 7] ++
          StreamEvent.stopRequest :: [StreamEvent.frameOk 3])).1.is_streaming = false :=
  C2_error_break [] [StreamEvent.pairIncomplete, StreamEvent.detectionError 7]
    [StreamEvent.frameOk 3] (by decide) (by decide)

end Realtime

/-! ## Recording-session lemmas and remaining claims -/

namespace Realtime

theorem numsOf_append (a c : List FrameMeta) :
    numsOf (a ++ c) = numsOf a ++ numsOf c := by
  simp [numsOf, List.filterMap_append]

theorem session_numsOf (annotate : ℕ → List DetInfo → ℕ) (depth : DepthMap) :
    ∀ (evs : List (Except String (List RawDet))) (st : ProcState),
      st.model_loaded = true → (∀ e ∈ evs, e.isOk = true) →
      numsOf ((evs.foldl (sessionStep annotate depth) st).detection_metadata)
          = numsOf st.detection_metadata ++ List.range' st.frame_count evs.length ∧
        (evs.foldl (sessionStep annotate depth) st).frame_count
          = st.frame_count + evs.length ∧
        (evs.foldl (sessionStep annotate depth) st).model_loaded = true := by
  intro evs
  induction evs with
  | nil => intro st hml _; simp [hml]
  | cons e t ih =>
    intro st hml hok
    cases e with
    | error msg =>
      have := hok (Except.error msg) (List.mem_cons_self _ _)
      simp [Except.isOk, Except.toBool] at this
    | ok dets =>
      have hdm : (sessionStep annotate depth st (Except.ok dets)).detection_metadata
          = st.detection_metadata ++
            [FrameMeta.ok st.frame_count 0 0 (dets.map (mkDetInfo depth))] := by
        simp [sessionStep, process_frame, hml, add_detection_metadata]
      have hfc : (sessionStep annotate depth st (Except.ok dets)).frame_count
          = st.frame_count + 1 := by
        simp [sessionStep, process_frame, hml, add_detection_metadata]
      have hmlp : (sessionStep annotate depth st (Except.ok dets)).model_loaded
          = true := by
        simp [sessionStep, process_frame, hml, add_detection_metadata]
      have hok' : ∀ e ∈ t, e.isOk = true :=
        fun e he => hok e (List.mem_cons_of_mem _ he)
      rw [List.foldl_cons]
      obtain ⟨h1, h2, h3⟩ := ih (sessionStep annotate depth st (Except.ok dets)) hmlp hok'
      refine ⟨?_, ?_, h3⟩
      · have hone : numsOf [FrameMeta.ok st.frame_count 0 0
            (dets.map (mkDetInfo depth))] = [st.frame_count] := rfl
        rw [h1, hdm, hfc, numsOf_append, hone, List.length_cons, List.range'_succ,
          List.append_assoc, List.singleton_append]
      · rw [h2, hfc, List.length_cons]
        omega

end Realtime

/-! ## Claim theorems: recording session sequence numbers (C5) -/

namespace Realtime

/-- C5 (counterexample): the claim says that within one recording session
with detection enabled the recorded frame numbers for N fed frames are
exactly 0..N-1.  When the detector raises on the middle of three fed
frames, the worker still appends the (truthy) error dictionary — which
carries no frame number and does not advance the counter — so the session
records only the numbers [0, 1] for N = 3 fed frames. -/
theorem C5_counterexample :
    ¬ (recordedNumbers (runRecordingSession annotate0 depthAllZero procState0
        [Except.ok [], Except.error "boom", Except.ok []]) = List.range 3) := by
  decide

/-- C5 (amended): within a single recording session with detection enabled
whose fed frames all process successfully (no detector error), the
recorded frame numbers are exactly 0..N-1 — reset to 0 on session start
and advancing by one per fed frame, regardless of any interleaved frame
drops at the bus (recording happens in the worker before the bus push and
is unaffected by it); a frame on which the detector raises instead
contributes an error record with no sequence number and does not advance
the counter. -/
theorem C5_sequence_numbers (annotate : ℕ → List DetInfo → ℕ) (depth : DepthMap)
    (st : ProcState) (evs : List (Except String (List RawDet)))
    (hml : st.model_loaded = true)
    (hok : ∀ e ∈ evs, e.isOk = true) :
    recordedNumbers (runRecordingSession annotate depth st evs)
      = List.range evs.length := by
  have hcl : (clear_metadata st).model_loaded = true := hml
  obtain ⟨h1, _, _⟩ := session_numsOf annotate depth evs (clear_metadata st) hcl hok
  rw [recordedNumbers, runRecordingSession, h1]
  have hdm : (clear_metadata st).detection_metadata = [] := rfl
  have hfc : (clear_metadata st).frame_count = 0 := rfl
  rw [hdm, hfc]
  simp [numsOf, List.range_eq_range']

/-- C5 witness: a two-frame error-free session records exactly [0, 1]. -/
theorem C5_witness :
    (∀ e ∈ ([Except.ok [], Except.ok []] : List (Except String (List RawDet))),
        e.isOk = true) ∧
      recordedNumbers (runRecordingSession annotate0 depthAllZero procState0
          [Except.ok [], Except.ok []]) = List.range 2 :=
  ⟨by decide,
   C5_sequence_numbers annotate0 depthAllZero procState0
     [Except.ok [], Except.ok []] rfl (by decide)⟩

/-! ## Claim theorems: detector failure pass-through (C6) -/

/-- C6: when the external detector raises on a frame (model loaded),
`process_frame` returns the original unannotated input frame together with
a metadata record carrying the error marker instead of a detection list,
leaving the processor state untouched; and the acquisition loop treats a
detection error as recoverable — the worker continues with the remaining
events (pushing the fallback colour frame) rather than exiting. -/
theorem C6_detector_error_passthrough (annotate : ℕ → List DetInfo → ℕ)
    (rgb : ℕ) (depth : DepthMap) (msg : String) (ts pt : ℚ) (st : ProcState)
    (bus : List ℕ) (b : ℕ) (rest : List StreamEvent)
    (hml : st.model_loaded = true) :
    process_frame annotate rgb depth (Except.error msg) ts pt st
        = (rgb, FrameMeta.err ("Processing failed: " ++ msg), st) ∧
      runWorker ⟨true, bus⟩ (StreamEvent.detectionError b :: rest)
        = runWorker ⟨true, put_nowait bus b⟩ rest := by
  constructor
  · simp [process_frame, hml]
  · rfl

/-- C6 witness: a concrete detector error returns the input frame 7
untouched with the error metadata, and the worker continues past a
detection error. -/
theorem C6_witness :
    procState0.model_loaded = true ∧
      process_frame annotate0 7 depthAllZero (Except.error "boom") 0 0 procState0
        = (7, FrameMeta.err ("Processing failed: " ++ "boom"), procState0) ∧
      runWorker ⟨true, [1]⟩ (StreamEvent.detectionError 2 :: [StreamEvent.frameOk 3])
        = runWorker ⟨true, put_nowait [1] 2⟩ [StreamEvent.frameOk 3] :=
  ⟨rfl,
   (C6_detector_error_passthrough annotate0 7 depthAllZero "boom" 0 0 procState0
      [1] 2 [StreamEvent.frameOk 3] rfl).1,
   (C6_detector_error_passthrough annotate0 7 depthAllZero "boom" 0 0 procState0
      [1] 2 [StreamEvent.frameOk 3] rfl).2⟩

/-! ## Sidecar path lemmas
The source derives the sidecar path with
`output_path.replace('.avi', '_detections.json').replace('.mp4', '_detections.json')`.
For every sink path `base ++ "_detection.avi"` whose base contains no '.'
character, both patterns start with '.', so the only occurrence either
pass can rewrite is the final extension: the chain replaces exactly the
extension.  The lemmas below prove this for all dot-free bases. -/

theorem replaceFuel_skip (ps rep : List Char) :
    ∀ (a t : List Char) (fuel : ℕ), (∀ c ∈ a, c ≠ '.') →
      (a ++ t).length ≤ fuel →
      replaceFuel '.' ps rep fuel (a ++ t)
        = a ++ replaceFuel '.' ps rep (fuel - a.length) t := by
  intro a
  induction a with
  | nil => intro t fuel _ _; simp
  | cons x a ih =>
    intro t fuel hnd hlen
    cases fuel with
    | zero =>
      simp only [List.cons_append, List.length_cons] at hlen
      omega
    | succ f =>
      have hx : x ≠ '.' := hnd x (List.mem_cons_self x a)
      have hbx : (('.' : Char) == x) = false := beq_eq_false_iff_ne.mpr (Ne.symm hx)
      have hm : matchesAt ('.' :: ps) (x :: (a ++ t)) = false := by
        simp [matchesAt, hbx]
      have hrec := ih t f (fun c hc => hnd c (List.mem_cons_of_mem x hc))
        (by simp only [List.cons_append, List.length_cons] at hlen; omega)
      calc replaceFuel '.' ps rep (f + 1) ((x :: a) ++ t)
          = x :: replaceFuel '.' ps rep f (a ++ t) := by
            rw [List.cons_append]
            simp only [replaceFuel, hm]
            simp
        _ = x :: (a ++ replaceFuel '.' ps rep (f - a.length) t) := by rw [hrec]
        _ = (x :: a) ++ replaceFuel '.' ps rep (f + 1 - (x :: a).length) t := by
            rw [List.cons_append, List.length_cons, Nat.succ_sub_succ]

theorem pyReplace_data (s rep : String) (p : Char) (ps : List Char) (pat : String)
    (hp : pat.data = p :: ps) :
    pyReplace s pat rep = ⟨replaceFuel p ps rep.data s.data.length s.data⟩ := by
  simp [pyReplace, hp]

theorem sidecar_path_extension (base : String)
    (hnd : ∀ c ∈ base.data, c ≠ '.') :
    pyReplace (pyReplace (base ++ "_detection.avi") ".avi" "_detections.json")
        ".mp4" "_detections.json"
      = base ++ "_detection_detections.json" := by
  have htail1 : ∀ c ∈ ("_detection" : String).data, c ≠ '.' := by decide
  have htail2 : ∀ c ∈ ("_detection_detections" : String).data, c ≠ '.' := by decide
  have hnd1 : ∀ c ∈ base.data ++ ("_detection" : String).data, c ≠ '.' :=
    fun c hc => (List.mem_append.mp hc).elim (hnd c) (htail1 c)
  have hnd2 : ∀ c ∈ base.data ++ ("_detection_detections" : String).data, c ≠ '.' :=
    fun c hc => (List.mem_append.mp hc).elim (hnd c) (htail2 c)
  have h1 : pyReplace (base ++ "_detection.avi") ".avi" "_detections.json"
      = base ++ "_detection_detections.json" := by
    rw [pyReplace_data _ _ '.' ('a' :: 'v' :: 'i' :: []) ".avi" (by decide)]
    apply String.ext
    show replaceFuel '.' ('a' :: 'v' :: 'i' :: [])
        ("_detections.json" : String).data
        (base ++ "_detection.avi").data.length (base ++ "_detection.avi").data
      = (base ++ "_detection_detections.json").data
    have hs1 : (base ++ "_detection.avi").data
        = (base.data ++ ("_detection" : String).data) ++ (".avi" : String).data := by
      rw [String.data_append, List.append_assoc]
      exact congrArg (fun l => base.data ++ l) (by decide)
    rw [hs1, replaceFuel_skip _ _ _ _ _ hnd1 (le_refl _),
      List.length_append, Nat.add_sub_cancel_left,
      show replaceFuel '.' ('a' :: 'v' :: 'i' :: [])
          ("_detections.json" : String).data (".avi" : String).data.length
          (".avi" : String).data = ("_detections.json" : String).data from by decide,
      String.data_append, List.append_assoc]
    exact congrArg (fun l => base.data ++ l) (by decide)
  rw [h1, pyReplace_data _ _ '.' ('m' :: 'p' :: '4' :: []) ".mp4" (by decide)]
  apply String.ext
  show replaceFuel '.' ('m' :: 'p' :: '4' :: [])
      ("_detections.json" : String).data
      (base ++ "_detection_detections.json").data.length
      (base ++ "_detection_detections.json").data
    = (base ++ "_detection_detections.json").data
  have hs2 : (base ++ "_detection_detections.json").data
      = (base.data ++ ("_detection_detections" : String).data)
          ++ (".json" : String).data := by
    rw [String.data_append, List.append_assoc]
    exact congrArg (fun l => base.data ++ l) (by decide)
  rw [hs2, replaceFuel_skip _ _ _ _ _ hnd2 (le_refl _),
    List.length_append, Nat.add_sub_cancel_left,
    show replaceFuel '.' ('m' :: 'p' :: '4' :: [])
        ("_detections.json" : String).data (".json" : String).data.length
        (".json" : String).data = (".json" : String).data from by decide]

/-! ## Claim theorems: metadata sidecar (C8) -/

/-- C8 (counterexample): the claim says the sidecar's `config` object has
keys center_region_ratio, depth_outlier_threshold, detector_input_size.
The source writes the third key as `yolo_input_size`; on a concrete save
the key `detector_input_size` is absent. -/
theorem C8_counterexample :
    "detector_input_size" ∉ fieldKeys (configOf
        (save_detection_metadata "rec_detection.avi" procState0 "model.pt").2) ∧
      fieldKeys (configOf
          (save_detection_metadata "rec_detection.avi" procState0 "model.pt").2)
        = ["center_region_ratio", "depth_outlier_threshold", "yolo_input_size"] := by
  constructor
  · decide
  · rfl

/-- C8 (amended): on session stop the sidecar is a JSON object with fields
total_frames (integer count of recorded frames), model_path (string),
config (object with keys center_region_ratio, depth_outlier_threshold and
yolo_input_size — not detector_input_size), and frames (the recorded
FrameMetadata in order, each successful detection serialized with
tracker_id, class_id, class_name, confidence, bbox as 4 floats, depth_mm,
depth_m), at the path derived from the primary video sink's path by
replacing its extension with "_detections.json".  The path clause is
proved for every output base free of '.' characters: there the source's
`str.replace` chain on '.avi'/'.mp4' rewrites exactly the sink path's
final extension. -/
theorem C8_sidecar_format (base : String) (st : ProcState) (mp : String)
    (hnd : ∀ c ∈ base.data, c ≠ '.') :
    (stopRecordingSidecar base st mp).1
        = base ++ "_detection_detections.json" ∧
      fieldKeys (stopRecordingSidecar base st mp).2
        = ["total_frames", "model_path", "config", "frames"] ∧
      lookupField (stopRecordingSidecar base st mp).2 "total_frames"
        = some (.jint (st.detection_metadata.length : ℤ)) ∧
      lookupField (stopRecordingSidecar base st mp).2 "model_path"
        = some (.jstr mp) ∧
      fieldKeys (configOf (stopRecordingSidecar base st mp).2)
        = ["center_region_ratio", "depth_outlier_threshold", "yolo_input_size"] ∧
      lookupField (stopRecordingSidecar base st mp).2 "frames"
        = some (.jarr (st.detection_metadata.map frameMetaToJ)) ∧
      ∀ d : DetInfo,
        fieldKeys (detToJ d) = ["tracker_id", "class_id", "class_name",
          "confidence", "bbox", "depth_mm", "depth_m"] ∧
        lookupField (detToJ d) "bbox" = some (.jarr [.jnum d.bbox.x1,
          .jnum d.bbox.y1, .jnum d.bbox.x2, .jnum d.bbox.y2]) :=
  ⟨sidecar_path_extension base hnd, rfl, rfl, rfl, rfl, rfl, fun _ => ⟨rfl, rfl⟩⟩

/-- C8 witness: at the base "recording" (no '.' in it), the sidecar lands
at "recording_detection_detections.json" — the sink path
"recording_detection.avi" with its extension replaced — with exactly the
amended document shape. -/
theorem C8_witness :
    (∀ c ∈ ("recording" : String).data, c ≠ '.') ∧
      ((stopRecordingSidecar "recording" procState0 "model.pt").1
          = "recording" ++ "_detection_detections.json" ∧
        fieldKeys (stopRecordingSidecar "recording" procState0 "model.pt").2
          = ["total_frames", "model_path", "config", "frames"] ∧
        lookupField (stopRecordingSidecar "recording" procState0 "model.pt").2
            "total_frames"
          = some (.jint (procState0.detection_metadata.length : ℤ)) ∧
        lookupField (stopRecordingSidecar "recording" procState0 "model.pt").2
            "model_path"
          = some (.jstr "model.pt") ∧
        fieldKeys (configOf (stopRecordingSidecar "recording" procState0 "model.pt").2)
          = ["center_region_ratio", "depth_outlier_threshold", "yolo_input_size"] ∧
        lookupField (stopRecordingSidecar "recording" procState0 "model.pt").2
            "frames"
          = some (.jarr (procState0.detection_metadata.map frameMetaToJ)) ∧
        ∀ d : DetInfo,
          fieldKeys (detToJ d) = ["tracker_id", "class_id", "class_name",
            "confidence", "bbox", "depth_mm", "depth_m"] ∧
          lookupField (detToJ d) "bbox" = some (.jarr [.jnum d.bbox.x1,
            .jnum d.bbox.y1, .jnum d.bbox.x2, .jnum d.bbox.y2])) :=
  ⟨by decide, C8_sidecar_format "recording" procState0 "model.pt" (by decide)⟩

/-! ## Claim theorems: second recording session refused (C9) -/

/-- C9: when a recording session is already active, `start_recording`
returns failure and the whole state — open sinks, metadata accumulator,
frame counter, start timestamp and output path — is returned unchanged. -/
theorem C9_start_while_active (st : RecState) (p : String) (d : Bool) (now : ℚ)
    (h : st.recording = true) :
    start_recording st p d now = (false, st) := by
  rw [start_recording, if_pos h]

/-- C9 witness: starting over a concrete active session fails and leaves
it untouched. -/
theorem C9_witness :
    recActive.recording = true ∧
      start_recording recActive "runB" true 99 = (false, recActive) :=
  ⟨rfl, C9_start_while_active recActive "runB" true 99 rfl⟩

end Realtime
